import Mathlib

set_option linter.unusedVariables false
set_option linter.unnecessarySeqFocus false

/-!
Verification of `createTemperatureLookUp.py` (ZSprinter repository).

The script is a batch generator: it parses CLI options, derives an effective
max ADC code, samples ADC codes with `range(1, max_adc, increment)`, converts
each sample to a temperature with an inline fixed-point formula, and prints a
C lookup table.  We embed the program shallowly:

* Python ints are `ℤ`, Python floats are modelled as exact rationals (`ℚ`)
  in the discrete pipeline and as reals (`ℝ`) wherever `math.exp` / `math.log`
  are involved; float rounding error is idealized away.
* Fallible operations (zero division, `math.log` domain errors, `range` with
  zero step) are modelled with explicit error values, matching the exceptions
  Python raises at the corresponding program points.
* The printed output is modelled as a list of output events in emission order.
-/

namespace ThermLookup

/-- Runtime errors the script can raise while generating the table:
`ZeroDivisionError`, `math` domain errors (`ValueError` from `log`), and the
`ValueError` raised by `range(..., 0)`. -/
inductive PyErr
  | zeroDivision
  | mathDomain
  | valueError
deriving DecidableEq, Repr

/-- Python `int(x)` on a real-valued quantity: truncation toward zero
(used for `int(max_adc_raw * r1 / (r1 + r2))` and
`int(max_adc/(num_temps-1))`, lines 100 and 103). -/
def pyTrunc (q : ℚ) : ℤ :=
  if 0 ≤ q then ⌊q⌋ else -⌊-q⌋

/-- Python `round(x)` on a float: nearest integer, ties to even
(banker's rounding). -/
noncomputable def pyRound (x : ℝ) : ℤ :=
  if Int.fract x = 1 / 2 then (if Even ⌊x⌋ then ⌊x⌋ else ⌊x⌋ + 1)
  else round x

/-- Number of elements of Python `range(start, stop, step)` for `step ≠ 0`:
`max 0 ⌈(stop-start)/step⌉` (resp. the mirrored count for negative step). -/
def pyRangeCount (start stop step : ℤ) : ℕ :=
  if 0 < step then ((stop - start).toNat + (step.toNat - 1)) / step.toNat
  else if step < 0 then ((start - stop).toNat + ((-step).toNat - 1)) / (-step).toNat
  else 0

/-- The element list of Python `range(start, stop, step)` for `step ≠ 0`. -/
def pyRange (start stop step : ℤ) : List ℤ :=
  (List.range (pyRangeCount start stop step)).map (fun (i : ℕ) => start + (i : ℤ) * step)

/-- `num_temps = int(61)` (line 70); hardcoded, not settable from the CLI. -/
def numTemps : ℤ := 61

/-- Lines 99-102: effective max ADC.  Python `if r1:` tests float truthiness,
i.e. `r1 ≠ 0`; the truthy branch computes `int(max_adc_raw * r1 / (r1 + r2))`. -/
def effMaxAdc (maxAdcRaw : ℤ) (r1 r2 : ℚ) : ℤ :=
  if r1 ≠ 0 then pyTrunc ((maxAdcRaw : ℚ) * r1 / (r1 + r2)) else maxAdcRaw

/-- Line 103: `increment = int(max_adc/(num_temps-1))` (true division, then
truncation toward zero). -/
def incrementOf (maxAdc : ℤ) : ℤ :=
  pyTrunc ((maxAdc : ℚ) / ((numTemps : ℚ) - 1))

/-- The numeric parameters of `main` after option processing (lines 65-97).
Floats are carried as exact rationals. -/
structure Params where
  r0 : ℚ
  r1 : ℚ
  r2 : ℚ
  vcc : ℚ
  t0 : ℤ
  beta : ℤ
  maxAdcRaw : ℤ
deriving DecidableEq, Repr

/-- The default parameter values (lines 65-72). -/
def defaultParams : Params :=
  { r0 := 100000, r1 := 0, r2 := 4700, vcc := 3279 / 1000
    t0 := 25, beta := 4267, maxAdcRaw := 1023 }

/-- A parameter set used to instantiate general theorems: defaults with
`vcc = 0` and `max_adc = 60` (every sampled row then takes the `temp = 0`
fallback branch, so the run completes). -/
def vccZeroParams : Params :=
  { defaultParams with vcc := 0, maxAdcRaw := 60 }

/-- Defaults with `max_adc = 50` (effective max ADC 50, increment 0). -/
def maxAdc50Params : Params :=
  { defaultParams with maxAdcRaw := 50 }

/-- Defaults with `max_adc = 30` (effective max ADC 30, increment 0). -/
def maxAdc30Params : Params :=
  { defaultParams with maxAdcRaw := 30 }

/-- Effective bias voltage `vs` (lines 44-48): the source tests `if r1 > 0:`. -/
noncomputable def vsOf (r1 r2 vcc : ℝ) : ℝ :=
  if 0 < r1 then r1 * vcc / (r1 + r2) else vcc

/-- Effective bias impedance `rs` (lines 44-49). -/
noncomputable def rsOf (r1 r2 : ℝ) : ℝ :=
  if 0 < r1 then r1 * r2 / (r1 + r2) else r2

/-- `k = r0 * exp(-beta / self.t0)` (line 41), the constant part of the
calculation, with `self.t0 = t0 + 273.15`. -/
noncomputable def kOf (r0 t0 beta : ℝ) : ℝ :=
  r0 * Real.exp (-beta / (t0 + 273.15))

/-- The `Thermistor` class state after `__init__` (lines 35-49). -/
structure Thermistor where
  r0 : ℝ
  t0 : ℝ
  beta : ℝ
  vadc : ℝ
  vcc : ℝ
  k : ℝ
  max_adc : ℝ
  vs : ℝ
  rs : ℝ

/-- `Thermistor.__init__(r0, t0, beta, r1, r2, max_adc, vcc)` (lines 35-49). -/
noncomputable def Thermistor.make (r0 t0 beta r1 r2 max_adc vcc : ℝ) : Thermistor :=
  { r0 := r0, t0 := t0 + 273.15, beta := beta, vadc := vcc, vcc := vcc
    k := kOf r0 t0 beta, max_adc := max_adc
    vs := vsOf r1 r2 vcc, rs := rsOf r1 r2 }

/-- `Thermistor.temp(adc)` (lines 51-55), with the exceptions Python raises
made explicit: `ZeroDivisionError` when `max_adc = 0`, when `vs - v = 0`, when
`k = 0`, or when `log(r/k) = 0` (the division `beta / log(...)`), and a `math`
domain `ValueError` when `r / k ≤ 0`. -/
noncomputable def Thermistor.tempE (th : Thermistor) (adc : ℝ) : Except PyErr ℝ :=
  if th.max_adc = 0 then .error .zeroDivision
  else
    let v := adc * th.vadc / th.max_adc
    if th.vs - v = 0 then .error .zeroDivision
    else
      let r := th.rs * v / (th.vs - v)
      if th.k = 0 then .error .zeroDivision
      else if r / th.k ≤ 0 then .error .mathDomain
      else if Real.log (r / th.k) = 0 then .error .zeroDivision
      else .ok (th.beta / Real.log (r / th.k) - 273.15)

/-- `Thermistor.setting(t)` (lines 57-61), with Python's exceptions made
explicit: `ZeroDivisionError` from `1/(t+273.15)`, `1/self.t0`,
`v/(rs + r) = 0` denominator, or `v / self.vadc`.  The result of `round` is
an integer. -/
noncomputable def Thermistor.settingE (th : Thermistor) (t : ℝ) : Except PyErr ℤ :=
  if t + 273.15 = 0 then .error .zeroDivision
  else if th.t0 = 0 then .error .zeroDivision
  else
    let r := th.r0 * Real.exp (th.beta * (1 / (t + 273.15) - 1 / th.t0))
    if th.rs + r = 0 then .error .zeroDivision
    else
      let v := th.vs * r / (th.rs + r)
      if th.vadc = 0 then .error .zeroDivision
      else .ok (pyRound (v / th.vadc * th.max_adc))

/-- The inline per-row temperature computation of the main loop
(lines 131-137): `v = adc/1024.0`, `T0 = t0 + 273.15`,
`k = r0*exp(-beta/T0)`; if `1000*vcc - 3320*v > 0` the row temperature is
`int(round(beta / log((1000*vcc - 3320*v)/(k*v)) - 273.15))`, else `0`.
The exceptions Python can raise inside the positive branch are explicit:
`ZeroDivisionError` when `k*v = 0` or when `log(...) = 0`, and a `math`
domain `ValueError` when the argument of `log` is `≤ 0`. -/
noncomputable def tempRowE (r0 : ℝ) (t0 beta : ℤ) (vcc : ℝ) (adc : ℤ) : Except PyErr ℤ :=
  let v : ℝ := (adc : ℝ) / 1024
  let T0 : ℝ := (t0 : ℝ) + 273.15
  let k : ℝ := r0 * Real.exp (-(beta : ℝ) / T0)
  if 0 < 1000 * vcc - 3320 * v then
    if k * v = 0 then .error .zeroDivision
    else if (1000 * vcc - 3320 * v) / (k * v) ≤ 0 then .error .mathDomain
    else if Real.log ((1000 * vcc - 3320 * v) / (k * v)) = 0 then .error .zeroDivision
    else .ok (pyRound ((beta : ℝ) / Real.log ((1000 * vcc - 3320 * v) / (k * v)) - 273.15))
  else .ok 0

/-- The main loop (lines 128-141): emit `(adc, temp)` rows in order; an
uncaught exception stops emission, dropping the remaining rows. -/
noncomputable def emitRows (p : Params) : List ℤ → List (ℤ × ℤ) × Option PyErr
  | [] => ([], none)
  | a :: rest =>
    match tempRowE (p.r0 : ℝ) p.t0 p.beta (p.vcc : ℝ) a with
    | .error e => ([], some e)
    | .ok t =>
      let res := emitRows p rest
      ((a, t) :: res.1, res.2)

/-- One line of program output, in emission order: the 11 header comment
lines (lines 114-124), the `#define NUMTEMPS` line (line 125), the array
opener (line 126), one table row (lines 139-141), the closing brace
(line 142). -/
inductive OutLine
  | header (i : ℕ)
  | defineNumtemps (n : ℕ)
  | tableOpen
  | row (adc : ℤ) (temp : ℤ)
  | tableClose
deriving DecidableEq, Repr

/-- `main` after option processing (lines 99-142), as the list of output
lines it prints before terminating, paired with the uncaught exception (if
any) that terminated it.  Order of effects follows the source: the
division by `r1 + r2` (line 100) and the `range` construction (line 107)
both happen before anything is printed; the closing brace is only printed
when every row was emitted. -/
noncomputable def mainEmit (p : Params) : List OutLine × Option PyErr :=
  if p.r1 ≠ 0 ∧ p.r1 + p.r2 = 0 then ([], some .zeroDivision)
  else
    let ma := effMaxAdc p.maxAdcRaw p.r1 p.r2
    let inc := incrementOf ma
    if inc = 0 then ([], some .valueError)
    else
      let adcs := pyRange 1 ma inc
      let res := emitRows p adcs
      ((List.range 11).map OutLine.header
        ++ [OutLine.defineNumtemps adcs.length, OutLine.tableOpen]
        ++ res.1.map (fun r => OutLine.row r.1 r.2)
        ++ (if res.2 = none then [OutLine.tableClose] else []),
       res.2)

/-- The table rows among a list of output lines. -/
def rowsOf (ls : List OutLine) : List (ℤ × ℤ) :=
  ls.filterMap (fun l => match l with | OutLine.row a t => some (a, t) | _ => none)

/-- The values printed on `#define NUMTEMPS` lines. -/
def numtempsOf (ls : List OutLine) : List ℕ :=
  ls.filterMap (fun l => match l with | OutLine.defineNumtemps n => some n | _ => none)

/-! ### CLI surface (lines 63-97)

`getopt.getopt(argv, "h", [...])` is Python standard library code, not part
of this repository; we model its documented contract for this option table:
long options (exact names, with `=value` or a following argument), the
single no-argument short option `h`, processing stopping at the first
non-option or at `--`, and `GetoptError` on anything unrecognized.
`float()` / `int()` conversion of option arguments is modelled on plain
decimal literals. -/

/-- The long option table passed to `getopt` (line 75). -/
def longOptNames : List String :=
  ["help", "r0=", "t0=", "beta=", "r1=", "r2=", "max-adc=", "vcc="]

/-- The error `getopt` raises on unrecognized options, missing required
arguments, or an argument supplied to a no-argument option. -/
inductive GetoptError
  | err
deriving DecidableEq, Repr

deriving instance DecidableEq for Except

/-- Split a character list at its first occurrence of `sep`, if any
(structural recursion, so concrete instances reduce in the kernel). -/
def splitAtChar (sep : Char) : List Char → List Char × Option (List Char)
  | [] => ([], none)
  | c :: cs =>
    if c = sep then ([], some cs)
    else
      let r := splitAtChar sep cs
      (c :: r.1, r.2)

/-- Model of `getopt.getopt(args, "h", longOptNames)`: returns the
`(option, argument)` pairs in order plus the remaining positional
arguments, or raises `GetoptError`.  Processing stops at `--` or at the
first non-option argument; an exact long name may carry `=value` or take
the next argument; the only short option is the no-argument `h`. -/
def getoptE : List String → Except GetoptError (List (String × String) × List String)
  | [] => .ok ([], [])
  | a :: rest =>
    match a.toList with
    | '-' :: '-' :: body =>
      if body = [] then .ok ([], rest)
      else
        let nv := splitAtChar '=' body
        let name : String := String.mk nv.1
        if name = "help" then
          match nv.2 with
          | none => (getoptE rest).map (fun r => (("--help", "") :: r.1, r.2))
          | some _ => .error .err
        else if longOptNames.contains (name ++ "=") then
          match nv.2 with
          | some v => (getoptE rest).map
              (fun r => (("--" ++ name, String.mk v) :: r.1, r.2))
          | none =>
            match rest with
            | [] => .error .err
            | v :: rest2 => (getoptE rest2).map
                (fun r => (("--" ++ name, v) :: r.1, r.2))
        else .error .err
    | '-' :: c :: cs =>
      if (c :: cs).all (fun ch => ch = 'h') then
        (getoptE rest).map
          (fun r => ((c :: cs).map (fun _ => ("-h", "")) ++ r.1, r.2))
      else .error .err
    | _ => .ok ([], a :: rest)

/-- Numeric value of a digit string. -/
def digitsVal (cs : List Char) : ℕ :=
  cs.foldl (fun n c => 10 * n + (c.toNat - 48)) 0

/-- Sign and remaining characters of a numeric literal. -/
def signSplit : List Char → ℤ × List Char
  | '-' :: t => (-1, t)
  | '+' :: t => (1, t)
  | t => (1, t)

/-- Model of Python `float(s)` on plain decimal literals
(`[+-]?digits[.digits]`, also `.5` and `1.`); anything else raises
`ValueError` (`none`). -/
def pyFloat? (s : String) : Option ℚ :=
  let sb := signSplit s.toList
  match splitAtChar '.' sb.2 with
  | (i, none) =>
    if i.all Char.isDigit && !i.isEmpty then
      some ((sb.1 : ℚ) * (digitsVal i : ℚ))
    else none
  | (i, some f) =>
    if i.all Char.isDigit && f.all Char.isDigit
        && !(i.isEmpty && f.isEmpty) then
      some ((sb.1 : ℚ) * ((digitsVal i : ℚ)
        + (digitsVal f : ℚ) / 10 ^ f.length))
    else none

/-- Model of Python `int(s)` on plain decimal literals (`[+-]?digits`);
anything else raises `ValueError` (`none`). -/
def pyInt? (s : String) : Option ℤ :=
  let sb := signSplit s.toList
  if sb.2.all Char.isDigit && !sb.2.isEmpty then
    some (sb.1 * (digitsVal sb.2 : ℤ))
  else none

/-- Result of the option-processing loop (lines 80-97): help requested
(`sys.exit()`), an uncaught `ValueError` from a numeric conversion, or the
final parameter set. -/
inductive ProcResult
  | help
  | convError
  | done (p : Params)
deriving DecidableEq, Repr

/-- The option-processing loop (lines 80-97), updating the defaults in
order; `-h`/`--help` short-circuits, a failed conversion raises. -/
def processOpts : List (String × String) → Params → ProcResult
  | [], p => .done p
  | (o, v) :: rest, p =>
    if o = "-h" ∨ o = "--help" then .help
    else if o = "--r0" then
      match pyFloat? v with
      | some x => processOpts rest { p with r0 := x }
      | none => .convError
    else if o = "--t0" then
      match pyInt? v with
      | some x => processOpts rest { p with t0 := x }
      | none => .convError
    else if o = "--beta" then
      match pyInt? v with
      | some x => processOpts rest { p with beta := x }
      | none => .convError
    else if o = "--r1" then
      match pyFloat? v with
      | some x => processOpts rest { p with r1 := x }
      | none => .convError
    else if o = "--r2" then
      match pyFloat? v with
      | some x => processOpts rest { p with r2 := x }
      | none => .convError
    else if o = "--max-adc" then
      match pyInt? v with
      | some x => processOpts rest { p with maxAdcRaw := x }
      | none => .convError
    else if o = "--vcc" then
      match pyFloat? v with
      | some x => processOpts rest { p with vcc := x }
      | none => .convError
    else processOpts rest p

/-- How a run of `main` leaves the CLI phase: usage text printed and
`sys.exit(code)` (code 2 on `GetoptError`, line 78; code 0 on help,
line 83), an uncaught conversion `ValueError`, or table generation with
the final parameters. -/
inductive CliOutcome
  | usageExit (code : ℕ)
  | convCrash
  | run (p : Params)
deriving DecidableEq, Repr

/-- Lines 74-97: parse the command line, then process options. -/
def mainCLI (argv : List String) : CliOutcome :=
  match getoptE argv with
  | .error _ => .usageExit 2
  | .ok pr =>
    match processOpts pr.1 defaultParams with
    | .help => .usageExit 0
    | .convError => .convCrash
    | .done p => .run p

/-! ## Helper lemmas -/

theorem pyTrunc_eq_floor {q : ℚ} (h : 0 ≤ q) : pyTrunc q = ⌊q⌋ := by
  simp [pyTrunc, h]

theorem pyTrunc_nonneg {q : ℚ} (h : 0 ≤ q) : 0 ≤ pyTrunc q := by
  rw [pyTrunc_eq_floor h]
  exact Int.floor_nonneg.mpr h

theorem incrementOf_nonneg {ma : ℤ} (h : 0 ≤ ma) : 0 ≤ incrementOf ma := by
  apply pyTrunc_nonneg
  have : (0 : ℚ) ≤ (ma : ℚ) := by exact_mod_cast h
  rw [numTemps]
  positivity

theorem effMaxAdc_nonneg {maxAdcRaw : ℤ} {r1 r2 : ℚ}
    (hraw : 0 ≤ maxAdcRaw) (hr1 : 0 ≤ r1) (hr2 : 0 ≤ r2) :
    0 ≤ effMaxAdc maxAdcRaw r1 r2 := by
  by_cases h : r1 = 0
  · simp [effMaxAdc, h, hraw]
  · have h1 : 0 < r1 := lt_of_le_of_ne hr1 (Ne.symm h)
    have hq : (0 : ℚ) ≤ (maxAdcRaw : ℚ) := by exact_mod_cast hraw
    have hd : 0 < r1 + r2 := by linarith
    rw [effMaxAdc, if_pos h]
    exact pyTrunc_nonneg (div_nonneg (mul_nonneg hq hr1) hd.le)

theorem pyRange_mem_bounds {start stop step : ℤ} (hs : 0 < step) :
    ∀ x ∈ pyRange start stop step, start ≤ x ∧ x < stop := by
  intro x hx
  rw [pyRange] at hx
  obtain ⟨i, hir, rfl⟩ := List.mem_map.mp hx
  have hi : i < pyRangeCount start stop step := List.mem_range.mp hir
  have hstep : (0 : ℤ) ≤ (i : ℤ) * step :=
    mul_nonneg (Int.natCast_nonneg i) hs.le
  refine ⟨by linarith, ?_⟩
  rw [pyRangeCount, if_pos hs] at hi
  by_cases hNz : (stop - start).toNat = 0
  · rw [hNz] at hi
    have h0 : (0 + (step.toNat - 1)) / step.toNat = 0 :=
      Nat.div_eq_of_lt (by omega)
    rw [h0] at hi
    exact absurd hi (Nat.not_lt_zero i)
  · have h3 : i * step.toNat + 1 ≤ (stop - start).toNat := by
      have h2 : (i + 1) * step.toNat ≤ (stop - start).toNat + (step.toNat - 1) :=
        (Nat.le_div_iff_mul_le (by omega)).mp hi
      rw [add_mul, one_mul] at h2
      generalize i * step.toNat = m at *
      omega
    have h4 : (i : ℤ) * step + 1 ≤ stop - start := by
      have h5 : ((i * step.toNat + 1 : ℕ) : ℤ) ≤ (((stop - start).toNat : ℕ) : ℤ) := by
        exact_mod_cast h3
      push_cast at h5
      rw [Int.toNat_of_nonneg hs.le,
        Int.toNat_of_nonneg (by omega : (0 : ℤ) ≤ stop - start)] at h5
      exact h5
    linarith

theorem pyRange_pairwise (start stop step : ℤ) (hs : 0 < step) :
    (pyRange start stop step).Pairwise (· < ·) := by
  rw [pyRange]
  refine List.Pairwise.map _ (fun a b hab => ?_) (List.pairwise_lt_range _)
  have h1 : (a : ℤ) < (b : ℤ) := by exact_mod_cast hab
  have h2 := mul_lt_mul_of_pos_right h1 hs
  linarith

theorem emitRows_mem {p : Params} :
    ∀ {l : List ℤ} {a t : ℤ}, (a, t) ∈ (emitRows p l).1 →
      a ∈ l ∧ tempRowE (p.r0 : ℝ) p.t0 p.beta (p.vcc : ℝ) a = .ok t := by
  intro l
  induction l with
  | nil => intro a t h; simp [emitRows] at h
  | cons b rest ih =>
    intro a t h
    cases htr : tempRowE (p.r0 : ℝ) p.t0 p.beta (p.vcc : ℝ) b with
    | error e => simp [emitRows, htr] at h
    | ok tb =>
      simp only [emitRows, htr, List.mem_cons, Prod.mk.injEq] at h
      rcases h with ⟨rfl, rfl⟩ | h
      · exact ⟨List.mem_cons_self _ _, htr⟩
      · obtain ⟨h1, h2⟩ := ih h
        exact ⟨List.mem_cons_of_mem _ h1, h2⟩

theorem emitRows_map_fst_sublist (p : Params) :
    ∀ l : List ℤ, List.Sublist ((emitRows p l).1.map Prod.fst) l := by
  intro l
  induction l with
  | nil => simp [emitRows]
  | cons b rest ih =>
    cases htr : tempRowE (p.r0 : ℝ) p.t0 p.beta (p.vcc : ℝ) b with
    | error e => simp [emitRows, htr]
    | ok tb =>
      simp only [emitRows, htr, List.map_cons]
      exact List.cons_sublist_cons.mpr ih

theorem emitRows_length_of_ok {p : Params} :
    ∀ {l : List ℤ}, (emitRows p l).2 = none →
      (emitRows p l).1.length = l.length := by
  intro l
  induction l with
  | nil => intro _; simp [emitRows]
  | cons b rest ih =>
    intro h
    cases htr : tempRowE (p.r0 : ℝ) p.t0 p.beta (p.vcc : ℝ) b with
    | error e => rw [emitRows, htr] at h; simp at h
    | ok tb =>
      rw [emitRows, htr] at h ⊢
      simpa using ih h

theorem rowsOf_append (a b : List OutLine) :
    rowsOf (a ++ b) = rowsOf a ++ rowsOf b := by
  simp [rowsOf]

theorem numtempsOf_append (a b : List OutLine) :
    numtempsOf (a ++ b) = numtempsOf a ++ numtempsOf b := by
  simp [numtempsOf]

theorem rowsOf_map_header (l : List ℕ) :
    rowsOf (l.map OutLine.header) = [] := by
  induction l with
  | nil => rfl
  | cons a rest ih => simp [rowsOf]

theorem numtempsOf_map_header (l : List ℕ) :
    numtempsOf (l.map OutLine.header) = [] := by
  induction l with
  | nil => rfl
  | cons a rest ih => simp [numtempsOf]

theorem rowsOf_map_row (l : List (ℤ × ℤ)) :
    rowsOf (l.map (fun r => OutLine.row r.1 r.2)) = l := by
  induction l with
  | nil => rfl
  | cons a rest ih => simpa [rowsOf] using ih

theorem numtempsOf_map_row (l : List (ℤ × ℤ)) :
    numtempsOf (l.map (fun r => OutLine.row r.1 r.2)) = [] := by
  induction l with
  | nil => rfl
  | cons a rest ih => simp [numtempsOf]

/-- On the non-error control path, the printed rows are exactly the rows the
loop emitted, the printed `NUMTEMPS` value is the sample count, and the
run's error is the loop's error. -/
theorem mainEmit_parts (p : Params)
    (h1 : ¬(p.r1 ≠ 0 ∧ p.r1 + p.r2 = 0))
    (h2 : incrementOf (effMaxAdc p.maxAdcRaw p.r1 p.r2) ≠ 0) :
    rowsOf (mainEmit p).1
      = (emitRows p (pyRange 1 (effMaxAdc p.maxAdcRaw p.r1 p.r2)
          (incrementOf (effMaxAdc p.maxAdcRaw p.r1 p.r2)))).1
    ∧ numtempsOf (mainEmit p).1
      = [(pyRange 1 (effMaxAdc p.maxAdcRaw p.r1 p.r2)
          (incrementOf (effMaxAdc p.maxAdcRaw p.r1 p.r2))).length]
    ∧ (mainEmit p).2
      = (emitRows p (pyRange 1 (effMaxAdc p.maxAdcRaw p.r1 p.r2)
          (incrementOf (effMaxAdc p.maxAdcRaw p.r1 p.r2)))).2 := by
  have key1 : (mainEmit p).1
      = (List.range 11).map OutLine.header
        ++ [OutLine.defineNumtemps (pyRange 1 (effMaxAdc p.maxAdcRaw p.r1 p.r2)
              (incrementOf (effMaxAdc p.maxAdcRaw p.r1 p.r2))).length,
            OutLine.tableOpen]
        ++ ((emitRows p (pyRange 1 (effMaxAdc p.maxAdcRaw p.r1 p.r2)
              (incrementOf (effMaxAdc p.maxAdcRaw p.r1 p.r2)))).1.map
            (fun r => OutLine.row r.1 r.2))
        ++ (if (emitRows p (pyRange 1 (effMaxAdc p.maxAdcRaw p.r1 p.r2)
              (incrementOf (effMaxAdc p.maxAdcRaw p.r1 p.r2)))).2 = none
            then [OutLine.tableClose] else []) := by
    simp only [mainEmit, if_neg h1, if_neg h2]
  have key2 : (mainEmit p).2
      = (emitRows p (pyRange 1 (effMaxAdc p.maxAdcRaw p.r1 p.r2)
          (incrementOf (effMaxAdc p.maxAdcRaw p.r1 p.r2)))).2 := by
    simp only [mainEmit, if_neg h1, if_neg h2]
  have hite1 : rowsOf (if (emitRows p (pyRange 1 (effMaxAdc p.maxAdcRaw p.r1 p.r2)
      (incrementOf (effMaxAdc p.maxAdcRaw p.r1 p.r2)))).2 = none
      then [OutLine.tableClose] else []) = [] := by
    split <;> rfl
  have hite2 : numtempsOf (if (emitRows p (pyRange 1 (effMaxAdc p.maxAdcRaw p.r1 p.r2)
      (incrementOf (effMaxAdc p.maxAdcRaw p.r1 p.r2)))).2 = none
      then [OutLine.tableClose] else []) = [] := by
    split <;> rfl
  refine ⟨?_, ?_, key2⟩
  · rw [key1, rowsOf_append, rowsOf_append, rowsOf_append, rowsOf_map_header,
      rowsOf_map_row, hite1]
    simp [rowsOf]
  · rw [key1, numtempsOf_append, numtempsOf_append, numtempsOf_append,
      numtempsOf_map_header, numtempsOf_map_row, hite2]
    simp [numtempsOf]

/-- When the two pre-output failure points do not fire, every printed row
was produced by `tempRowE` on a sampled ADC code. -/
theorem mainEmit_row_sound {p : Params} {a t : ℤ}
    (hmem : (a, t) ∈ rowsOf (mainEmit p).1) :
    tempRowE (p.r0 : ℝ) p.t0 p.beta (p.vcc : ℝ) a = .ok t
    ∧ a ∈ pyRange 1 (effMaxAdc p.maxAdcRaw p.r1 p.r2)
        (incrementOf (effMaxAdc p.maxAdcRaw p.r1 p.r2)) := by
  by_cases h1 : p.r1 ≠ 0 ∧ p.r1 + p.r2 = 0
  · rw [mainEmit, if_pos h1] at hmem
    simp [rowsOf] at hmem
  · by_cases h2 : incrementOf (effMaxAdc p.maxAdcRaw p.r1 p.r2) = 0
    · rw [mainEmit, if_neg h1] at hmem
      simp only [h2, if_pos rfl] at hmem
      simp [rowsOf] at hmem
    · rw [(mainEmit_parts p h1 h2).1] at hmem
      obtain ⟨hm, he⟩ := emitRows_mem hmem
      exact ⟨he, hm⟩

theorem tempRowE_vcc_zero (r0 : ℝ) (t0 beta : ℤ) {a : ℤ} (ha : 1 ≤ a) :
    tempRowE r0 t0 beta 0 a = .ok 0 := by
  have ha' : (1 : ℝ) ≤ (a : ℝ) := by exact_mod_cast ha
  have h : ¬(0 < 1000 * (0 : ℝ) - 3320 * ((a : ℝ) / 1024)) := by
    push_neg
    nlinarith
  simp only [tempRowE]
  rw [if_neg h]

theorem emitRows_vcc_zero :
    ∀ l : List ℤ, (∀ a ∈ l, 1 ≤ a) →
      emitRows vccZeroParams l = (l.map (fun a => (a, (0 : ℤ))), none) := by
  have hv : ((vccZeroParams.vcc : ℚ) : ℝ) = 0 := by
    norm_num [vccZeroParams, defaultParams]
  intro l
  induction l with
  | nil => intro _; simp [emitRows]
  | cons b rest ih =>
    intro hl
    have hb : tempRowE (vccZeroParams.r0 : ℝ) vccZeroParams.t0 vccZeroParams.beta
        ((vccZeroParams.vcc : ℚ) : ℝ) b = .ok 0 := by
      rw [hv]
      exact tempRowE_vcc_zero _ _ _ (hl b (List.mem_cons_self b rest))
    simp only [emitRows, hb]
    rw [ih (fun a ha => hl a (List.mem_cons_of_mem _ ha))]
    rfl

theorem effMaxAdc_vccZeroParams :
    effMaxAdc vccZeroParams.maxAdcRaw vccZeroParams.r1 vccZeroParams.r2 = 60 := by
  norm_num [effMaxAdc, vccZeroParams, defaultParams]

theorem incrementOf_sixty : incrementOf 60 = 1 := by
  norm_num [incrementOf, pyTrunc, numTemps]

theorem vccZeroParams_no_div_zero :
    ¬(vccZeroParams.r1 ≠ 0 ∧ vccZeroParams.r1 + vccZeroParams.r2 = 0) := by
  norm_num [vccZeroParams, defaultParams]

theorem vccZeroParams_inc_ne :
    incrementOf (effMaxAdc vccZeroParams.maxAdcRaw vccZeroParams.r1
      vccZeroParams.r2) ≠ 0 := by
  rw [effMaxAdc_vccZeroParams, incrementOf_sixty]
  exact one_ne_zero

theorem vccZeroParams_adcs_pos :
    ∀ a ∈ pyRange 1 (effMaxAdc vccZeroParams.maxAdcRaw vccZeroParams.r1
      vccZeroParams.r2) (incrementOf (effMaxAdc vccZeroParams.maxAdcRaw
      vccZeroParams.r1 vccZeroParams.r2)), 1 ≤ a := by
  rw [effMaxAdc_vccZeroParams, incrementOf_sixty]
  decide

theorem mainEmit_vcc_zero_done : (mainEmit vccZeroParams).2 = none := by
  rw [(mainEmit_parts vccZeroParams vccZeroParams_no_div_zero
    vccZeroParams_inc_ne).2.2, emitRows_vcc_zero _ vccZeroParams_adcs_pos]

theorem mainEmit_vcc_zero_rows :
    rowsOf (mainEmit vccZeroParams).1
      = (pyRange 1 60 1).map (fun a => (a, (0 : ℤ))) := by
  rw [(mainEmit_parts vccZeroParams vccZeroParams_no_div_zero
      vccZeroParams_inc_ne).1, emitRows_vcc_zero _ vccZeroParams_adcs_pos,
    effMaxAdc_vccZeroParams, incrementOf_sixty]

/-! ## The claims -/

/-- C3: if `r1 > 0`, the effective max ADC used for sampling equals
`floor(max_adc_raw * r1 / (r1 + r2))`; if `r1 = 0` it equals `max_adc_raw`
exactly.  (Stated for the valid parameter domain `max_adc_raw ≥ 0`,
`r2 ≥ 0`; the source truncates toward zero, which agrees with `floor`
there.) -/
theorem claim3_effective_max_adc (maxAdcRaw : ℤ) (r1 r2 : ℚ)
    (hraw : 0 ≤ maxAdcRaw) (hr2 : 0 ≤ r2) :
    (0 < r1 → effMaxAdc maxAdcRaw r1 r2 = ⌊(maxAdcRaw : ℚ) * r1 / (r1 + r2)⌋)
    ∧ (r1 = 0 → effMaxAdc maxAdcRaw r1 r2 = maxAdcRaw) := by
  constructor
  · intro h1
    have hq : (0 : ℚ) ≤ (maxAdcRaw : ℚ) := by exact_mod_cast hraw
    have hd : 0 < r1 + r2 := by linarith
    rw [effMaxAdc, if_pos h1.ne']
    exact pyTrunc_eq_floor (div_nonneg (mul_nonneg hq h1.le) hd.le)
  · intro h0
    simp [effMaxAdc, h0]

/-- Witness for C3 at `max_adc_raw = 5, r1 = 1, r2 = 1` and at
`max_adc_raw = 7, r1 = 0, r2 = 4700`. -/
theorem claim3_witness :
    effMaxAdc 5 1 1 = ⌊((5 : ℤ) : ℚ) * 1 / (1 + 1)⌋
    ∧ effMaxAdc 7 0 4700 = 7 :=
  ⟨(claim3_effective_max_adc 5 1 1 (by decide) (by norm_num)).1 (by norm_num),
   (claim3_effective_max_adc 7 0 4700 (by decide) (by norm_num)).2 rfl⟩

/-- C2: whenever the generator runs to completion, the emitted row count
equals `len(range(1, max_adc, increment))` and the `NUMTEMPS` value equals
that count; the truncated increment agrees with the claimed
`floor(max_adc/(num_temps-1))` for nonnegative `max_adc`; and for the
default parameters the increment is 17, the first sample is `adc = 1`, and
the table has exactly 61 rows. -/
theorem claim2_row_count (p : Params) (hdone : (mainEmit p).2 = none) :
    (rowsOf (mainEmit p).1).length
        = (pyRange 1 (effMaxAdc p.maxAdcRaw p.r1 p.r2)
            (incrementOf (effMaxAdc p.maxAdcRaw p.r1 p.r2))).length
    ∧ numtempsOf (mainEmit p).1
        = [(pyRange 1 (effMaxAdc p.maxAdcRaw p.r1 p.r2)
            (incrementOf (effMaxAdc p.maxAdcRaw p.r1 p.r2))).length]
    ∧ (∀ ma : ℤ, 0 ≤ ma →
        incrementOf ma = ⌊(ma : ℚ) / ((numTemps : ℚ) - 1)⌋)
    ∧ incrementOf (effMaxAdc defaultParams.maxAdcRaw defaultParams.r1
        defaultParams.r2) = 17
    ∧ (pyRange 1 1023 17).head? = some 1
    ∧ (pyRange 1 1023 17).length = 61 := by
  have h1 : ¬(p.r1 ≠ 0 ∧ p.r1 + p.r2 = 0) := by
    intro hcon
    rw [mainEmit, if_pos hcon] at hdone
    simp at hdone
  have h2 : incrementOf (effMaxAdc p.maxAdcRaw p.r1 p.r2) ≠ 0 := by
    intro hz
    simp only [mainEmit, if_neg h1, hz, if_pos] at hdone
    simp at hdone
  obtain ⟨hr, hn, he⟩ := mainEmit_parts p h1 h2
  rw [he] at hdone
  refine ⟨?_, hn, ?_, ?_, by decide, by decide⟩
  · rw [hr]
    exact emitRows_length_of_ok hdone
  case refine_3 =>
    have heff : effMaxAdc defaultParams.maxAdcRaw defaultParams.r1
        defaultParams.r2 = 1023 := by
      norm_num [effMaxAdc, defaultParams]
    rw [heff]
    norm_num [incrementOf, pyTrunc, numTemps]
  · intro ma hma
    rw [incrementOf]
    apply pyTrunc_eq_floor
    apply div_nonneg
    · exact_mod_cast hma
    · norm_num [numTemps]

/-- Witness for C2 at the completing parameter set `vccZeroParams`. -/
theorem claim2_witness :
    (mainEmit vccZeroParams).2 = none
    ∧ (rowsOf (mainEmit vccZeroParams).1).length
        = (pyRange 1 (effMaxAdc vccZeroParams.maxAdcRaw vccZeroParams.r1
            vccZeroParams.r2) (incrementOf (effMaxAdc vccZeroParams.maxAdcRaw
            vccZeroParams.r1 vccZeroParams.r2))).length :=
  ⟨mainEmit_vcc_zero_done,
   (claim2_row_count vccZeroParams mainEmit_vcc_zero_done).1⟩

/-- C7: for nonnegative circuit parameters, the ADC codes of the emitted
rows are strictly increasing in emission order, and every emitted code lies
in `[1, max_adc)` for the effective max ADC. -/
theorem claim7_monotone_bounded (p : Params)
    (hraw : 0 ≤ p.maxAdcRaw) (hr1 : 0 ≤ p.r1) (hr2 : 0 ≤ p.r2) :
    ((rowsOf (mainEmit p).1).map Prod.fst).Pairwise (· < ·)
    ∧ ∀ r ∈ rowsOf (mainEmit p).1,
        1 ≤ r.1 ∧ r.1 < effMaxAdc p.maxAdcRaw p.r1 p.r2 := by
  by_cases h1 : p.r1 ≠ 0 ∧ p.r1 + p.r2 = 0
  · obtain ⟨ha, hb⟩ := h1
    have : 0 < p.r1 := lt_of_le_of_ne hr1 (Ne.symm ha)
    linarith
  · by_cases h2 : incrementOf (effMaxAdc p.maxAdcRaw p.r1 p.r2) = 0
    · have hemp : rowsOf (mainEmit p).1 = [] := by
        simp only [mainEmit, if_neg h1]
        rw [if_pos h2]
        rfl
      rw [hemp]
      exact ⟨List.Pairwise.nil, by simp⟩
    · obtain ⟨hr, _, _⟩ := mainEmit_parts p h1 h2
      have hinc : 0 < incrementOf (effMaxAdc p.maxAdcRaw p.r1 p.r2) :=
        lt_of_le_of_ne (incrementOf_nonneg (effMaxAdc_nonneg hraw hr1 hr2))
          (Ne.symm h2)
      constructor
      · rw [hr]
        exact List.Pairwise.sublist (emitRows_map_fst_sublist p _)
          (pyRange_pairwise 1 _ _ hinc)
      · rintro ⟨a, t⟩ hrm
        rw [hr] at hrm
        obtain ⟨hmem, _⟩ := emitRows_mem hrm
        exact pyRange_mem_bounds hinc a hmem

/-- Witness for C7 at the default parameters. -/
theorem claim7_witness :
    ((rowsOf (mainEmit defaultParams).1).map Prod.fst).Pairwise (· < ·) :=
  (claim7_monotone_bounded defaultParams (by norm_num [defaultParams])
    (by norm_num [defaultParams]) (by norm_num [defaultParams])).1

/-- C10 counterexample: at `max_adc = 50` (defaults otherwise) the
increment is 0 and `range(1, 50, 0)` raises `ValueError` — but the program
output at that point is empty: the failure precedes the header comments
(line 107 runs before the prints of lines 114-124), contradicting the
claim that the program terminates "after the header comments". -/
theorem claim10_counterexample :
    effMaxAdc maxAdc50Params.maxAdcRaw maxAdc50Params.r1 maxAdc50Params.r2 = 50
    ∧ incrementOf 50 = 0
    ∧ mainEmit maxAdc50Params = ([], some PyErr.valueError) := by
  have he : effMaxAdc maxAdc50Params.maxAdcRaw maxAdc50Params.r1
      maxAdc50Params.r2 = 50 := by
    norm_num [effMaxAdc, maxAdc50Params, defaultParams]
  have hi : incrementOf 50 = 0 := by
    norm_num [incrementOf, pyTrunc, numTemps]
  have h1 : ¬(maxAdc50Params.r1 ≠ 0 ∧ maxAdc50Params.r1 + maxAdc50Params.r2 = 0) := by
    norm_num [maxAdc50Params, defaultParams]
  have h2 : incrementOf (effMaxAdc maxAdc50Params.maxAdcRaw maxAdc50Params.r1
      maxAdc50Params.r2) = 0 := by
    rw [he]
    exact hi
  refine ⟨he, hi, ?_⟩
  simp only [mainEmit, if_neg h1]
  rw [if_pos h2]

/-- C10 amended: for every parameter set whose effective max ADC lies in
`[1, 59]`, the computed increment is 0 and the `range(1, max_adc, 0)`
construction raises an uncaught `ValueError`, terminating the program
before ANY output is emitted (header comments included). -/
theorem claim10_amended (p : Params)
    (hlo : 1 ≤ effMaxAdc p.maxAdcRaw p.r1 p.r2)
    (hhi : effMaxAdc p.maxAdcRaw p.r1 p.r2 ≤ 59) :
    incrementOf (effMaxAdc p.maxAdcRaw p.r1 p.r2) = 0
    ∧ mainEmit p = ([], some PyErr.valueError) := by
  have h1 : ¬(p.r1 ≠ 0 ∧ p.r1 + p.r2 = 0) := by
    rintro ⟨ha, hb⟩
    rw [effMaxAdc, if_pos ha, hb] at hlo
    norm_num [pyTrunc] at hlo
  have hz : incrementOf (effMaxAdc p.maxAdcRaw p.r1 p.r2) = 0 := by
    rw [incrementOf]
    have h60 : ((numTemps : ℤ) : ℚ) - 1 = 60 := by norm_num [numTemps]
    rw [h60]
    have hma0 : (0 : ℚ) ≤ (effMaxAdc p.maxAdcRaw p.r1 p.r2 : ℚ) := by
      exact_mod_cast le_trans (by norm_num) hlo
    have hq0 : (0 : ℚ) ≤ (effMaxAdc p.maxAdcRaw p.r1 p.r2 : ℚ) / 60 :=
      div_nonneg hma0 (by norm_num)
    rw [pyTrunc_eq_floor hq0]
    rw [Int.floor_eq_zero_iff]
    refine ⟨hq0, ?_⟩
    rw [div_lt_one (by norm_num : (0 : ℚ) < 60)]
    exact_mod_cast lt_of_le_of_lt hhi (by norm_num)
  refine ⟨hz, ?_⟩
  simp only [mainEmit, if_neg h1]
  rw [if_pos hz]

/-- Witness for the amended C10 at `max_adc = 30`. -/
theorem claim10_witness :
    mainEmit maxAdc30Params = ([], some PyErr.valueError) :=
  (claim10_amended maxAdc30Params
    (by norm_num [effMaxAdc, maxAdc30Params, defaultParams])
    (by norm_num [effMaxAdc, maxAdc30Params, defaultParams])).2

/-- C1: every emitted table row `(adc, temp)` satisfies the inline formula:
with `v = adc/1024.0` (hardcoded 1024) and `k = r0*exp(-beta/(t0+273.15))`,
if `1000*vcc - 3320*v > 0` then `temp` is the rounded
`beta/ln((1000*vcc-3320*v)/(k*v)) - 273.15`, and otherwise `temp = 0`
exactly. -/
theorem claim1_inline_temp (p : Params) (adc t : ℤ)
    (hmem : (adc, t) ∈ rowsOf (mainEmit p).1) :
    (0 < 1000 * (p.vcc : ℝ) - 3320 * ((adc : ℝ) / 1024) →
      t = pyRound ((p.beta : ℝ)
            / Real.log ((1000 * (p.vcc : ℝ) - 3320 * ((adc : ℝ) / 1024))
                / ((p.r0 : ℝ) * Real.exp (-(p.beta : ℝ) / ((p.t0 : ℝ) + 273.15))
                    * ((adc : ℝ) / 1024)))
          - 273.15))
    ∧ (¬ 0 < 1000 * (p.vcc : ℝ) - 3320 * ((adc : ℝ) / 1024) → t = 0) := by
  obtain ⟨hok, _⟩ := mainEmit_row_sound hmem
  simp only [tempRowE] at hok
  constructor
  · intro hpos
    rw [if_pos hpos] at hok
    split_ifs at hok with hkv harg hlog <;> simp_all
  · intro hneg
    rw [if_neg hneg] at hok
    simp only [Except.ok.injEq] at hok
    exact hok.symm

/-- Witness for C1: at `vccZeroParams` the row `(1, 0)` is emitted and the
guard is non-positive, so its temperature is the fallback 0. -/
theorem claim1_witness :
    ((1 : ℤ), (0 : ℤ)) ∈ rowsOf (mainEmit vccZeroParams).1
    ∧ (0 : ℤ) = 0 := by
  have hmem : ((1 : ℤ), (0 : ℤ)) ∈ rowsOf (mainEmit vccZeroParams).1 := by
    rw [mainEmit_vcc_zero_rows]
    decide
  refine ⟨hmem, ?_⟩
  exact (claim1_inline_temp vccZeroParams 1 0 hmem).2
    (by norm_num [vccZeroParams, defaultParams])

theorem vsOf_pos {r1 r2 vcc : ℝ} (hr1 : 0 ≤ r1) (hr2 : 0 < r2)
    (hvcc : 0 < vcc) : 0 < vsOf r1 r2 vcc := by
  rw [vsOf]
  split
  · exact div_pos (mul_pos (by assumption) hvcc) (by linarith)
  · exact hvcc

theorem rsOf_pos {r1 r2 : ℝ} (hr1 : 0 ≤ r1) (hr2 : 0 < r2) :
    0 < rsOf r1 r2 := by
  rw [rsOf]
  split
  · exact div_pos (mul_pos (by assumption) hr2) (by linarith)
  · exact hr2

theorem kOf_pos {r0 : ℝ} (t0 beta : ℝ) (hr0 : 0 < r0) :
    0 < kOf r0 t0 beta := by
  rw [kOf]
  positivity

/-- C4: for a Thermistor constructed with valid circuit parameters and an
`adc` whose intermediate values are in domain, `temp(adc)` returns
`beta/ln(r/k) - 273.15` with `v = adc*vadc/max_adc` (`vadc = vcc`),
`r = rs*v/(vs-v)` and `k = r0*exp(-beta/(t0+273.15))`. -/
theorem claim4_temp_formula (r0 t0 beta r1 r2 max_adc vcc adc : ℝ)
    (hr0 : 0 < r0) (hbeta : 0 < beta) (hr1 : 0 ≤ r1) (hr2 : 0 < r2)
    (hma : 0 < max_adc) (hvcc : 0 < vcc)
    (hv : vsOf r1 r2 vcc - adc * vcc / max_adc ≠ 0)
    (hrk : 0 < (rsOf r1 r2 * (adc * vcc / max_adc)
        / (vsOf r1 r2 vcc - adc * vcc / max_adc)) / kOf r0 t0 beta)
    (hlog : Real.log ((rsOf r1 r2 * (adc * vcc / max_adc)
        / (vsOf r1 r2 vcc - adc * vcc / max_adc)) / kOf r0 t0 beta) ≠ 0) :
    (Thermistor.make r0 t0 beta r1 r2 max_adc vcc).tempE adc
      = .ok (beta / Real.log ((rsOf r1 r2 * (adc * vcc / max_adc)
          / (vsOf r1 r2 vcc - adc * vcc / max_adc)) / kOf r0 t0 beta)
        - 273.15) := by
  have hk : kOf r0 t0 beta ≠ 0 := (kOf_pos t0 beta hr0).ne'
  simp only [Thermistor.tempE, Thermistor.make]
  rw [if_neg hma.ne', if_neg hv, if_neg hk, if_neg (not_le.mpr hrk), if_neg hlog]

/-- Witness for C4 at `r0 = 1, t0 = -272.15, beta = 1, r1 = 0, r2 = 1,
max_adc = 2, vcc = 2, adc = 1` (so `v = 1`, `r = 1`, `k = exp(-1)`,
`r/k = e`). -/
theorem claim4_witness :
    (Thermistor.make 1 (-272.15) 1 0 1 2 2).tempE 1
      = .ok (1 / Real.log ((rsOf 0 1 * (1 * 2 / 2)
          / (vsOf 0 1 2 - 1 * 2 / 2)) / kOf 1 (-272.15) 1) - 273.15) := by
  have hexp : (rsOf 0 1 * (1 * 2 / 2) / (vsOf 0 1 2 - 1 * 2 / 2))
      / kOf 1 (-272.15) 1 = Real.exp 1 := by
    rw [vsOf, rsOf, kOf]
    norm_num [Real.exp_neg]
  exact claim4_temp_formula 1 (-272.15) 1 0 1 2 2 1 (by norm_num) (by norm_num)
    (by norm_num) (by norm_num) (by norm_num) (by norm_num)
    (by rw [vsOf]; norm_num)
    (by rw [hexp]; positivity)
    (by rw [hexp, Real.log_exp]; norm_num)

/-- C5: `temp(adc)` fails with an error whenever `v ≥ vs` (the resistance
denominator `vs - v` is `≤ 0`) or `r/k ≤ 0` (log domain error); the
conditions are not guarded inside `temp` and surface to the caller. -/
theorem claim5_temp_error (r0 t0 beta r1 r2 max_adc vcc adc : ℝ)
    (hr0 : 0 < r0) (hbeta : 0 < beta) (hr1 : 0 ≤ r1) (hr2 : 0 < r2)
    (hma : 0 < max_adc) (hvcc : 0 < vcc)
    (hfail : vsOf r1 r2 vcc ≤ adc * vcc / max_adc
      ∨ (rsOf r1 r2 * (adc * vcc / max_adc)
          / (vsOf r1 r2 vcc - adc * vcc / max_adc)) / kOf r0 t0 beta ≤ 0) :
    ∃ e, (Thermistor.make r0 t0 beta r1 r2 max_adc vcc).tempE adc
      = .error e := by
  have hk : 0 < kOf r0 t0 beta := kOf_pos t0 beta hr0
  have hvs : 0 < vsOf r1 r2 vcc := vsOf_pos hr1 hr2 hvcc
  have hrs : 0 < rsOf r1 r2 := rsOf_pos hr1 hr2
  by_cases hveq : vsOf r1 r2 vcc - adc * vcc / max_adc = 0
  · refine ⟨.zeroDivision, ?_⟩
    simp only [Thermistor.tempE, Thermistor.make]
    rw [if_neg hma.ne', if_pos hveq]
  · have hle : (rsOf r1 r2 * (adc * vcc / max_adc)
        / (vsOf r1 r2 vcc - adc * vcc / max_adc)) / kOf r0 t0 beta ≤ 0 := by
      rcases hfail with hge | hle
      · have hlt : vsOf r1 r2 vcc < adc * vcc / max_adc :=
          lt_of_le_of_ne hge (fun h => hveq (by rw [h]; ring))
        have hv0 : 0 < adc * vcc / max_adc := lt_trans hvs hlt
        have hrneg : rsOf r1 r2 * (adc * vcc / max_adc)
            / (vsOf r1 r2 vcc - adc * vcc / max_adc) < 0 :=
          div_neg_of_pos_of_neg (mul_pos hrs hv0) (by linarith)
        exact le_of_lt (div_neg_of_neg_of_pos hrneg hk)
      · exact hle
    refine ⟨.mathDomain, ?_⟩
    simp only [Thermistor.tempE, Thermistor.make]
    rw [if_neg hma.ne', if_neg hveq, if_neg hk.ne', if_pos hle]

/-- Witness for C5 at `adc = 2` with `max_adc = 2, vcc = 2` (so `v = 2 = vs`
and the resistance denominator is zero). -/
theorem claim5_witness :
    ∃ e, (Thermistor.make 1 (-272.15) 1 0 1 2 2).tempE 2 = .error e :=
  claim5_temp_error 1 (-272.15) 1 0 1 2 2 2 (by norm_num) (by norm_num)
    (by norm_num) (by norm_num) (by norm_num) (by norm_num)
    (Or.inl (by rw [vsOf]; norm_num))

/-- C6: for a Thermistor constructed with valid circuit parameters and a
temperature `t` in domain, `setting(t)` returns `round(v/vadc*max_adc)`
with `r = r0*exp(beta*(1/(t+273.15) - 1/t0_abs))`, `t0_abs = t0+273.15`
and `v = vs*r/(rs+r)`. -/
theorem claim6_setting_formula (r0 t0 beta r1 r2 max_adc vcc t : ℝ)
    (hr0 : 0 < r0) (hbeta : 0 < beta) (hr1 : 0 ≤ r1) (hr2 : 0 < r2)
    (hma : 0 < max_adc) (hvcc : 0 < vcc)
    (ht : t + 273.15 ≠ 0) (ht0 : t0 + 273.15 ≠ 0) :
    (Thermistor.make r0 t0 beta r1 r2 max_adc vcc).settingE t
      = .ok (pyRound (vsOf r1 r2 vcc
          * (r0 * Real.exp (beta * (1 / (t + 273.15) - 1 / (t0 + 273.15))))
          / (rsOf r1 r2
            + r0 * Real.exp (beta * (1 / (t + 273.15) - 1 / (t0 + 273.15))))
          / vcc * max_adc)) := by
  have hrs : 0 < rsOf r1 r2 := rsOf_pos hr1 hr2
  have hrpos : 0 < r0 * Real.exp (beta * (1 / (t + 273.15) - 1 / (t0 + 273.15))) := by
    positivity
  have hden : rsOf r1 r2
      + r0 * Real.exp (beta * (1 / (t + 273.15) - 1 / (t0 + 273.15))) ≠ 0 := by
    positivity
  simp only [Thermistor.settingE, Thermistor.make]
  rw [if_neg ht, if_neg ht0, if_neg hden, if_neg hvcc.ne']

/-- Witness for C6 at `r0 = 1, t0 = -272.15, beta = 1, r1 = 0, r2 = 1,
max_adc = 1, vcc = 1, t = -272.15`. -/
theorem claim6_witness :
    (Thermistor.make 1 (-272.15) 1 0 1 1 1).settingE (-272.15)
      = .ok (pyRound (vsOf 0 1 1
          * (1 * Real.exp (1 * (1 / (-272.15 + 273.15) - 1 / (-272.15 + 273.15))))
          / (rsOf 0 1
            + 1 * Real.exp (1 * (1 / (-272.15 + 273.15) - 1 / (-272.15 + 273.15))))
          / 1 * 1)) :=
  claim6_setting_formula 1 (-272.15) 1 0 1 1 1 (-272.15) (by norm_num)
    (by norm_num) (by norm_num) (by norm_num) (by norm_num) (by norm_num)
    (by norm_num) (by norm_num)

theorem pyRound_intCast (n : ℤ) : pyRound ((n : ℝ)) = n := by
  rw [pyRound, Int.fract_intCast, if_neg (by norm_num)]
  exact round_intCast n

/-- C8: in the mid-range region (voltage strictly between 0 and the bias
voltage, thermistor resistance not exactly `k`, so `temp` is defined and
its log is nonzero), `setting(temp(adc))` round-trips to within ±1 ADC
code — in the exact-real model it recovers `adc` exactly. -/
theorem claim8_roundtrip (r0 t0 beta r1 r2 max_adc vcc : ℝ) (adc : ℤ)
    (hr0 : 0 < r0) (hbeta : 0 < beta) (hr1 : 0 ≤ r1) (hr2 : 0 < r2)
    (hma : 0 < max_adc) (hvcc : 0 < vcc) (ht0 : t0 + 273.15 ≠ 0)
    (hv0 : 0 < (adc : ℝ) * vcc / max_adc)
    (hvlt : (adc : ℝ) * vcc / max_adc < vsOf r1 r2 vcc)
    (hne : rsOf r1 r2 * ((adc : ℝ) * vcc / max_adc)
        / (vsOf r1 r2 vcc - (adc : ℝ) * vcc / max_adc) ≠ kOf r0 t0 beta) :
    ∃ (T : ℝ) (s : ℤ),
      (Thermistor.make r0 t0 beta r1 r2 max_adc vcc).tempE adc = .ok T
      ∧ (Thermistor.make r0 t0 beta r1 r2 max_adc vcc).settingE T = .ok s
      ∧ |s - adc| ≤ 1 := by
  have hrs : 0 < rsOf r1 r2 := rsOf_pos hr1 hr2
  have hk : 0 < kOf r0 t0 beta := kOf_pos t0 beta hr0
  set v : ℝ := (adc : ℝ) * vcc / max_adc with hvdef
  have hdenpos : 0 < vsOf r1 r2 vcc - v := by linarith
  have hden : vsOf r1 r2 vcc - v ≠ 0 := hdenpos.ne'
  set r : ℝ := rsOf r1 r2 * v / (vsOf r1 r2 vcc - v) with hrdef
  have hrpos : 0 < r := div_pos (mul_pos hrs hv0) hdenpos
  have hrk_pos : 0 < r / kOf r0 t0 beta := div_pos hrpos hk
  have hrk_ne1 : r / kOf r0 t0 beta ≠ 1 := by
    intro h
    exact hne ((div_eq_one_iff_eq hk.ne').mp h)
  have hlog_ne : Real.log (r / kOf r0 t0 beta) ≠ 0 := by
    intro h
    rcases Real.log_eq_zero.mp h with h0 | h1 | hm1
    · exact hrk_pos.ne' h0
    · exact hrk_ne1 h1
    · linarith
  have htempE : (Thermistor.make r0 t0 beta r1 r2 max_adc vcc).tempE adc
      = .ok (beta / Real.log (r / kOf r0 t0 beta) - 273.15) := by
    simp only [Thermistor.tempE, Thermistor.make]
    rw [if_neg hma.ne', if_neg hden, if_neg hk.ne',
      if_neg (not_le.mpr hrk_pos), if_neg hlog_ne]
  set T : ℝ := beta / Real.log (r / kOf r0 t0 beta) - 273.15 with hTdef
  have hT_abs : T + 273.15 = beta / Real.log (r / kOf r0 t0 beta) := by
    rw [hTdef]; ring
  have hTne : T + 273.15 ≠ 0 := by
    rw [hT_abs]
    exact div_ne_zero hbeta.ne' hlog_ne
  have hr_exp : r0 * Real.exp (beta * (1 / (T + 273.15) - 1 / (t0 + 273.15)))
      = r := by
    rw [hT_abs, one_div_div, mul_sub,
      mul_div_cancel₀ _ hbeta.ne', mul_one_div, Real.exp_sub,
      Real.exp_log hrk_pos]
    have hek : Real.exp (beta / (t0 + 273.15)) = r0 / kOf r0 t0 beta := by
      rw [kOf, neg_div, Real.exp_neg]
      field_simp
    rw [hek]
    field_simp
  have hrs_r : rsOf r1 r2 + r ≠ 0 := (add_pos hrs hrpos).ne'
  have hsetE : (Thermistor.make r0 t0 beta r1 r2 max_adc vcc).settingE T
      = .ok (pyRound (vsOf r1 r2 vcc * r / (rsOf r1 r2 + r) / vcc * max_adc)) := by
    simp only [Thermistor.settingE, Thermistor.make]
    rw [hr_exp, if_neg hTne, if_neg ht0, if_neg hrs_r, if_neg hvcc.ne']
  have hveq : vsOf r1 r2 vcc * r / (rsOf r1 r2 + r) = v := by
    have h1 : rsOf r1 r2 + r = rsOf r1 r2 * vsOf r1 r2 vcc
        / (vsOf r1 r2 vcc - v) := by
      rw [hrdef]
      field_simp
      ring
    rw [h1, hrdef]
    have hD : rsOf r1 r2 * vsOf r1 r2 vcc / (vsOf r1 r2 vcc - v) ≠ 0 :=
      div_ne_zero (mul_ne_zero hrs.ne' (vsOf_pos hr1 hr2 hvcc).ne') hden
    rw [div_eq_iff hD]
    field_simp
    ring
  have hval : vsOf r1 r2 vcc * r / (rsOf r1 r2 + r) / vcc * max_adc
      = (adc : ℝ) := by
    rw [hveq, hvdef]
    field_simp [hvcc.ne', hma.ne']
    ring
  refine ⟨T, adc, htempE, ?_, by simp⟩
  rw [hsetE, hval, pyRound_intCast]

/-- Witness for C8 at `r0 = 1, t0 = -272.15, beta = 1, r1 = 0, r2 = 1,
max_adc = 2, vcc = 2, adc = 1` (mid-range: `v = 1 ∈ (0, vs) = (0, 2)`,
`r = 1 ≠ k = exp(-1)`). -/
theorem claim8_witness :
    ∃ (T : ℝ) (s : ℤ),
      (Thermistor.make 1 (-272.15) 1 0 1 2 2).tempE ((1 : ℤ) : ℝ) = .ok T
      ∧ (Thermistor.make 1 (-272.15) 1 0 1 2 2).settingE T = .ok s
      ∧ |s - 1| ≤ 1 :=
  claim8_roundtrip 1 (-272.15) 1 0 1 2 2 1 (by norm_num) (by norm_num)
    (by norm_num) (by norm_num) (by norm_num) (by norm_num) (by norm_num)
    (by norm_num) (by rw [vsOf]; norm_num)
    (by
      rw [vsOf, rsOf, kOf]
      norm_num
      intro h
      rw [eq_comm, Real.exp_eq_one_iff] at h
      norm_num at h)

/-- C9: `num_temps` is fixed at 61 (not an accepted option, though the
help text documents `--num-temps`); any command line `getopt` rejects —
`--num-temps=61` among them — makes the program print the usage text and
exit with status 2; a parsed command line whose option processing reaches
`-h`/`--help` makes it print the usage text and exit with status 0. -/
theorem claim9_cli_exits :
    numTemps = 61
    ∧ (∀ (argv : List String) (e : GetoptError),
        getoptE argv = .error e → mainCLI argv = .usageExit 2)
    ∧ getoptE ["--num-temps=61"] = .error .err
    ∧ mainCLI ["--num-temps=61"] = .usageExit 2
    ∧ (∀ (argv : List String) (opts : List (String × String))
        (rest : List String),
        getoptE argv = .ok (opts, rest) →
        processOpts opts defaultParams = .help →
        mainCLI argv = .usageExit 0) := by
  refine ⟨rfl, ?_, by decide, by decide, ?_⟩
  · intro argv e h
    simp [mainCLI, h]
  · intro argv opts rest hok hhelp
    simp [mainCLI, hok, hhelp]

/-- Witness for C9: `-h` alone exits 0; a lone unrecognized option exits 2. -/
theorem claim9_witness :
    mainCLI ["--num-temps=61"] = .usageExit 2
    ∧ mainCLI ["-h"] = .usageExit 0 :=
  ⟨claim9_cli_exits.2.2.2.1,
   claim9_cli_exits.2.2.2.2 ["-h"] [("-h", "")] [] (by decide) (by decide)⟩

end ThermLookup
